import Mathlib

/-!
Verification development for the ScreenComply Lite system-integrity
polling agent (`system_monitor.py`, `logger.py`).

The Python source is shallowly embedded: every pure fragment of the
monitor (title classification, switch diffing, ring-buffer maintenance,
TTL caching, report rendering, sleep-slice arithmetic) becomes an
executable Lean definition; the interactions with the OS (window
enumeration, subprocess output, the filesystem, the wall clock) become
explicit parameters of those definitions.  Wall-clock instants (Python
floats) are modelled as integers — every property proved about them is
purely order-theoretic, so only a linear order with subtraction is
needed — and the polling-interval arithmetic of the scheduler is
modelled over exact rationals.
-/

/- ────────────────────────────────────────────────────────────
   Character-list string helpers.

   Python's `needle in hay` containment test and lowercase folding are
   modelled over `List Char`.  `chStarts n h` says `n` is an initial
   segment of `h`; `chHasSeg n h` says `n` occurs contiguously inside
   `h` (Python `in`); `chEnds n h` says `n` is a terminal segment of
   `h` (what the spec's "suffix" wording would require).
   ──────────────────────────────────────────────────────────── -/

def chStarts : List Char → List Char → Bool
  | [], _ => true
  | _ :: _, [] => false
  | a :: as, b :: bs => a == b && chStarts as bs

def chHasSeg (needle : List Char) : List Char → Bool
  | [] => chStarts needle []
  | c :: rest => chStarts needle (c :: rest) || chHasSeg needle rest

def chEnds (needle : List Char) : List Char → Bool
  | [] => needle.isEmpty
  | c :: rest => needle == c :: rest || chEnds needle rest

/-- Python `str.lower()`, character by character. -/
def strLower (s : String) : String := String.mk (s.data.map Char.toLower)

/-- Python `needle in hay`. -/
def strHas (hay needle : String) : Bool := chHasSeg needle.data hay.data

/-- Python `hay.endswith(needle)`. -/
def strEnds (hay needle : String) : Bool := chEnds needle.data hay.data

theorem chStarts_self (l : List Char) : chStarts l l = true := by
  induction l with
  | nil => rfl
  | cons a as ih => simp [chStarts, ih]

theorem chHasSeg_of_chStarts {n h : List Char} (hp : chStarts n h = true) :
    chHasSeg n h = true := by
  cases h with
  | nil => simpa [chHasSeg] using hp
  | cons c rest => simp [chHasSeg, hp]

theorem chHasSeg_cons {n t : List Char} (c : Char) (hh : chHasSeg n t = true) :
    chHasSeg n (c :: t) = true := by
  simp [chHasSeg, hh]

theorem chHasSeg_of_chEnds {n h : List Char} (he : chEnds n h = true) :
    chHasSeg n h = true := by
  induction h with
  | nil =>
    cases n with
    | nil => rfl
    | cons a as => simp [chEnds, List.isEmpty] at he
  | cons c rest ih =>
    have he' : n = c :: rest ∨ chEnds n rest = true := by simpa [chEnds] using he
    rcases he' with h1 | h2
    · subst h1
      exact chHasSeg_of_chStarts (chStarts_self _)
    · exact chHasSeg_cons c (ih h2)

theorem strHas_of_strEnds {hay needle : String}
    (h : strEnds hay needle = true) : strHas hay needle = true :=
  chHasSeg_of_chEnds h

/- ────────────────────────────────────────────────────────────
   Browser Classifier  (system_monitor.py, `classify_browser` inside
   `_get_browser_info_windows` / `_get_browser_stats_windows`).

   The Python source iterates the pattern table in insertion order and
   returns the first family one of whose patterns occurs — via the
   substring test `pat.lower() in title.lower()` — anywhere in the
   lowercased title.
   ──────────────────────────────────────────────────────────── -/

def TITLE_PATTERNS : List (String × List String) :=
  [("Chrome",   [" - Google Chrome", " - Chrome"]),
   ("Brave",    [" - Brave"]),
   ("Edge",     [" - Microsoft Edge", " - MS Edge", " - Edge"]),
   ("Firefox",  [" - Mozilla Firefox", " - Firefox"]),
   ("Opera",    [" - Opera"]),
   ("Chromium", [" - Chromium"]),
   ("Vivaldi",  [" - Vivaldi"])]

def classifyWith (tl : String) : List (String × List String) → Option String
  | [] => none
  | (name, pats) :: rest =>
    if pats.any (fun pat => strHas tl (strLower pat)) then some name
    else classifyWith tl rest

def classify_browser (title : String) : Option String :=
  classifyWith (strLower title) TITLE_PATTERNS

/-- Does some pattern of some family occur as a *suffix* of the
lowercased title?  (The spec's claimed classification criterion.) -/
def suffixMatches (title : String) : Bool :=
  TITLE_PATTERNS.any fun np => np.2.any fun pat => strEnds (strLower title) (strLower pat)

theorem classifyWith_isSome_iff (tl : String) (table : List (String × List String)) :
    (classifyWith tl table).isSome = true ↔
      ∃ name pats, (name, pats) ∈ table ∧
        ∃ pat ∈ pats, strHas tl (strLower pat) = true := by
  induction table with
  | nil => simp [classifyWith]
  | cons np rest ih =>
    obtain ⟨name, pats⟩ := np
    by_cases h : pats.any (fun pat => strHas tl (strLower pat)) = true
    · simp only [classifyWith, h, if_pos]
      constructor
      · intro _
        obtain ⟨pat, hpat, hh⟩ := List.any_eq_true.mp h
        exact ⟨name, pats, List.mem_cons_self _ _, pat, hpat, hh⟩
      · intro _; rfl
    · simp only [classifyWith, h, if_neg, Bool.false_eq_true, ite_false]
      rw [ih]
      constructor
      · rintro ⟨n, ps, hmem, pat, hpat, hh⟩
        exact ⟨n, ps, List.mem_cons_of_mem _ hmem, pat, hpat, hh⟩
      · rintro ⟨n, ps, hmem, pat, hpat, hh⟩
        rcases List.mem_cons.mp hmem with heq | hmem'
        · exfalso
          have : (name, pats) = (n, ps) := heq.symm
          cases this
          exact h (List.any_eq_true.mpr ⟨pat, hpat, hh⟩)
        · exact ⟨n, ps, hmem', pat, hpat, hh⟩

/- ────────────────────────────────────────────────────────────
   Activity Tracker  (system_monitor.py, `_get_browser_stats_windows`,
   together with the fields initialised in `SystemIntegrityWorker.__init__`:
   `_prev_titles = {}`, `_switch_history = deque(maxlen=500)`,
   `_total_switches = 0`).

   A Python dict {hwnd: title} is modelled as an insertion-ordered
   association list.  `collections.deque(maxlen=500).append` drops from
   the left when full; the eviction `while` loop pops entries older
   than 60 seconds from the left.  Wall-clock instants are integers.
   ──────────────────────────────────────────────────────────── -/

abbrev TitleMap := List (Nat × String)

/-- `deque(maxlen).append(t)`: appends on the right, evicting from the
left when the buffer is full. -/
def dequeAppend (maxlen : Nat) (buf : List ℤ) (t : ℤ) : List ℤ :=
  let b := buf ++ [t]
  if maxlen < b.length then b.drop (b.length - maxlen) else b

/-- `while self._switch_history and now - self._switch_history[0] > 60:
self._switch_history.popleft()`. -/
def evictOld (now : ℤ) : List ℤ → List ℤ
  | [] => []
  | t :: rest => if 60 < now - t then evictOld now rest else t :: rest

/-- `old_title = prev.get(hwnd); if old_title and old_title != new_title`
for one entry `(hwnd, new_title)` of the fresh title map: Python
truthiness makes an empty old title fail the test. -/
def switchTest (prev : TitleMap) (p : Nat × String) : Bool :=
  match List.lookup p.1 prev with
  | some old => old != "" && old != p.2
  | none => false

/-- The `for hwnd, new_title in browser_titles.items()` diff loop:
threads the switch-history buffer and the lifetime counter through the
entries of the fresh title map, appending one `now`-stamped event and
incrementing the counter for each detected switch. -/
def diffLoop (prev : TitleMap) (now : ℤ) :
    TitleMap → List ℤ × Nat → List ℤ × Nat
  | [], acc => acc
  | p :: rest, (hist, total) =>
    if switchTest prev p then
      diffLoop prev now rest (dequeAppend 500 hist now, total + 1)
    else
      diffLoop prev now rest (hist, total)

structure TrackerState where
  prevTitles : TitleMap
  switchHistory : List ℤ
  totalSwitches : Nat

/-- The stateful part of one `_get_browser_stats_windows` poll: diff
against the previous titles, evict stale events, replace the title map
wholesale. -/
def pollTracker (st : TrackerState) (now : ℤ) (titles : TitleMap) : TrackerState :=
  let r := diffLoop st.prevTitles now titles (st.switchHistory, st.totalSwitches)
  { prevTitles := titles, switchHistory := evictOld now r.1, totalSwitches := r.2 }

/- ────────────────────────────────────────────────────────────
   Extension Scanner with TTL cache
   (system_monitor.py, `_get_extension_summary`; cache fields
   `_ext_cache_time = 0.0`, `_ext_cache_str` from `__init__`).

   The filesystem inspection of the browser extension roots is the
   environment: it is passed in as the list of (browser name, subdir
   count) for the roots whose directory exists at this instant.
   Every recomputation path of the source stores the fresh string and
   stamps `_ext_cache_time = now_ts`.
   ──────────────────────────────────────────────────────────── -/

structure ExtCache where
  cacheTime : ℤ
  cacheStr : String

/-- Fresh-state values from `SystemIntegrityWorker.__init__`. -/
def initExtCache : ExtCache := ⟨0, "  (no extension scan yet)"⟩

/-- The `lines` loop of `_get_extension_summary`: one
`  * {name}: ~{n} extension(s)` line per existing root. -/
def scanLines (fs : List (String × Option Nat)) : List String :=
  fs.filterMap fun nc =>
    nc.2.map fun k => "  * " ++ nc.1 ++ ": ~" ++ toString k ++ " extension(s)"

/-- `"\n".join(lines) if lines else "  (no extension roots found)"`. -/
def computeSummary (fs : List (String × Option Nat)) : String :=
  let lines := scanLines fs
  if lines.isEmpty then "  (no extension roots found)"
  else String.intercalate "\n" lines

/-- `_get_extension_summary(now_ts)`: cache hit when strictly less than
10 seconds have passed since the last cache write, otherwise rescan and
restamp.  Returns (returned string, new cache state). -/
def getExtensionSummary (st : ExtCache) (now : ℤ)
    (fs : List (String × Option Nat)) : String × ExtCache :=
  if now - st.cacheTime < 10 then (st.cacheStr, st)
  else
    let s := computeSummary fs
    (s, ⟨now, s⟩)

/- ────────────────────────────────────────────────────────────
   Network Prober, nearby-networks section
   (system_monitor.py, `_get_network_info_windows` third block and
   `_get_network_info_macos` airport block).

   The SSID names already parsed out of the tool output are the input;
   the definitions render the lines this section appends to `out`.
   ──────────────────────────────────────────────────────────── -/

/-- Windows: header, first 10 names, an explicit `(+N more)` marker when
more than 10 were discovered, then a blank line.  Nothing is appended
when no names were discovered. -/
def nearbySectionWindows (ssids : List String) : List String :=
  if ssids.isEmpty then []
  else
    ("Nearby Networks:" :: (ssids.take 10).map (fun s => "  * " ++ s))
      ++ (if 10 < ssids.length then
            ["  * (+" ++ toString (ssids.length - 10) ++ " more)"]
          else [])
      ++ [""]

/-- macOS: header, first 10 names, blank line — the source appends no
overflow marker on this platform. -/
def nearbySectionMacos (ssids : List String) : List String :=
  if ssids.isEmpty then []
  else
    ("Nearby Networks:" :: (ssids.take 10).map (fun s => "  * " ++ s)) ++ [""]

/- ────────────────────────────────────────────────────────────
   Process Lister  (system_monitor.py, `_get_running_programs_windows`
   and `_get_running_programs_macos`, success path).

   The parsed process tuples are the input (the `processes` list built
   from `tasklist` / `ps` output); `list.sort(key=lambda x: x[0].lower())`
   is a stable sort on the lowercased name, modelled with `List.mergeSort`.
   ──────────────────────────────────────────────────────────── -/

structure ProcW where
  name : String
  pid : String
  mem : String

structure ProcM where
  name : String
  pid : String

def procLeW (a b : ProcW) : Bool := decide (strLower a.name ≤ strLower b.name)

def procLeM (a b : ProcM) : Bool := decide (strLower a.name ≤ strLower b.name)

def hasCluelyW (p : ProcW) : Bool := strHas (strLower p.name) "cluely"

def hasCluelyM (p : ProcM) : Bool := strHas (strLower p.name) "cluely"

/-- Success path of `_get_running_programs_windows`: sort, compute the
marker boolean over the sorted list, render the header lines and one
line per process. -/
def renderProgramsWindows (ps : List ProcW) : List String :=
  let processes := ps.mergeSort procLeW
  let cluely := processes.any hasCluelyW
  ("Cluely Detected: " ++ (if cluely then "YES" else "NO") ++ "\n")
    :: "Running Programs:"
    :: processes.map fun p => "  * " ++ p.name ++ "  (PID " ++ p.pid ++ ")  Mem: " ++ p.mem

/-- Success path of `_get_running_programs_macos`. -/
def renderProgramsMacos (ps : List ProcM) : List String :=
  let processes := ps.mergeSort procLeM
  let cluely := processes.any hasCluelyM
  ("Cluely Detected: " ++ (if cluely then "YES" else "NO") ++ "\n")
    :: "Running Programs:"
    :: processes.map fun p => "  * " ++ p.name ++ "  (PID " ++ p.pid ++ ")"

/- ────────────────────────────────────────────────────────────
   Log sink  (logger.py, `LiteLogger.log_system_integrity`;
   `_snapshot_count = 0` from `__init__`).

   The JSONL write is assumed to succeed; the elapsed/human timestamps
   are environment inputs per call.
   ──────────────────────────────────────────────────────────── -/

structure IntegrityData where
  browser_info : String
  browser_stats : String
  network_info : String
  programs_info : String

structure LogEntry where
  snapshot : Nat
  timestamp_ms : Nat
  timestamp_human : String
  browser_info : String
  browser_stats : String
  network_info : String
  programs_info : String

structure LoggerState where
  snapshotCount : Nat

def initLoggerState : LoggerState := ⟨0⟩

/-- One `log_system_integrity` call: increments `_snapshot_count` then
emits the JSONL record carrying it. -/
def log_system_integrity (st : LoggerState) (ts : Nat × String)
    (d : IntegrityData) : LoggerState × LogEntry :=
  let c := st.snapshotCount + 1
  (⟨c⟩, ⟨c, ts.1, ts.2, d.browser_info, d.browser_stats, d.network_info, d.programs_info⟩)

/-- The sequence of records produced by a session's successive
`log_system_integrity` calls. -/
def runSession (st : LoggerState) : List ((Nat × String) × IntegrityData) → List LogEntry
  | [] => []
  | c :: rest =>
    let r := log_system_integrity st c.1 c.2
    r.2 :: runSession r.1 rest

/- ────────────────────────────────────────────────────────────
   Polling Scheduler  (system_monitor.py, `SystemIntegrityWorker.run`
   and `SystemIntegrityWorker.stop`).

   Three aspects of `run` are embedded separately.

   (1) Fault flow: the body wraps the construction of the whole
   four-entry `results` dict and the `log_system_integrity` call in a
   single `try: ... except Exception: pass`.  A probe outcome is either
   a returned payload or a raised exception; the dict is built keys in
   order, so the first raising probe aborts the whole body and nothing
   is dispatched for that iteration, while the loop itself continues.

   (2) Timing / cancellation: the inter-poll pause is
   `for _ in range(int(interval * 10)): if stop: break; sleep(0.1)`, and
   the outer `while not self._stop_requested` re-reads the flag before
   each poll.  Flag reads are numbered; the flag's value at the k-th
   read is `flag k`, monotone because `stop()` only ever sets it.

   (3) Slice-count arithmetic: `int(interval * 10)` truncates toward
   zero and `range` clamps negatives, modelled over exact rationals.
   ──────────────────────────────────────────────────────────── -/

inductive ProbeOutcome where
  | ok (payload : String)
  | raise
deriving DecidableEq

structure PollProbes where
  browser_info : ProbeOutcome
  browser_stats : ProbeOutcome
  network_info : ProbeOutcome
  programs_info : ProbeOutcome

/-- One iteration of the `run` body: `some` assembled snapshot data if
every probe returned, `none` if any probe raised (the blanket
`except Exception: pass` swallows the fault and nothing is logged). -/
def pollIteration (p : PollProbes) : Option IntegrityData :=
  match p.browser_info, p.browser_stats, p.network_info, p.programs_info with
  | .ok b, .ok s, .ok n, .ok pr => some ⟨b, s, n, pr⟩
  | _, _, _, _ => none

/-- The snapshots dispatched to the log sink over a run of successive
iterations with the given probe outcomes: the loop never stops on a
fault, it just skips the dispatch of the faulted iteration. -/
def runIterations : List PollProbes → List IntegrityData
  | [] => []
  | p :: rest =>
    match pollIteration p with
    | some d => d :: runIterations rest
    | none => runIterations rest

structure WorkerFlags where
  stopRequested : Bool

/-- `SystemIntegrityWorker.stop`: sets the flag, nothing else. -/
def workerStop (w : WorkerFlags) : WorkerFlags := { w with stopRequested := true }

/-- The sliced sleep `for _ in range(n): if stop: break; sleep(0.1)`,
started at flag-read index `k`: returns (slices slept, next read index). -/
def sliceLoop (flag : Nat → Bool) : Nat → Nat → Nat × Nat
  | 0, k => (0, k)
  | n + 1, k =>
    if flag k then (0, k + 1)
    else
      let r := sliceLoop flag n (k + 1)
      (r.1 + 1, r.2)

/-- The outer `while not self._stop_requested` loop with `fuel` bounding
the number of iterations observed: returns (polls performed, slices
slept), reading the flag once per `while` test and once per slice. -/
def runLoop (flag : Nat → Bool) (slices : Nat) : Nat → Nat → Nat × Nat
  | 0, _ => (0, 0)
  | fuel + 1, k =>
    if flag k then (0, 0)
    else
      let s := sliceLoop flag slices (k + 1)
      let r := runLoop flag slices fuel s.2
      (r.1 + 1, s.1 + r.2)

/-- Once set, the stop flag stays set across later reads. -/
def FlagMonotone (flag : Nat → Bool) : Prop :=
  ∀ i j, i ≤ j → flag i = true → flag j = true

/-- Python `int(x)` for a rational: truncation toward zero. -/
def pyInt (q : ℚ) : ℤ := if 0 ≤ q then ⌊q⌋ else ⌈q⌉

/-- `len(range(int(interval * 10)))`: the number of 0.1-second slices
of one inter-poll pause (`range` of a negative count is empty). -/
def numSleepSlices (interval : ℚ) : Nat := (pyInt (interval * 10)).toNat

/- ────────────────────────────────────────────────────────────
   Supporting lemmas
   ──────────────────────────────────────────────────────────── -/

theorem runSession_map_snapshot (calls : List ((Nat × String) × IntegrityData)) :
    ∀ st : LoggerState,
      (runSession st calls).map (fun e => e.snapshot)
        = List.range' (st.snapshotCount + 1) calls.length := by
  induction calls with
  | nil => intro st; simp [runSession]
  | cons c rest ih =>
    intro st
    simp only [runSession, log_system_integrity, List.map_cons, List.length_cons,
      List.range'_succ]
    exact congrArg _ (ih ⟨st.snapshotCount + 1⟩)

/- ────────────────────────────────────────────────────────────
   Claim theorems
   ──────────────────────────────────────────────────────────── -/

/-- C2: within one session the log sink's `log_system_integrity` stamps
the n-th recorded snapshot with sequence number exactly n — the emitted
sequence-number stream over any sequence of calls is `1, 2, …, length`,
starting at 1 and increasing by exactly 1 per call (the counter starts
at `_snapshot_count = 0` and is incremented once per call). -/
theorem snapshot_numbers_are_consecutive (calls : List ((Nat × String) × IntegrityData)) :
    (runSession initLoggerState calls).map (fun e => e.snapshot)
      = List.range' 1 calls.length :=
  runSession_map_snapshot calls initLoggerState

/-- C10: for a nonnegative configured interval, the inter-poll pause of
`SystemIntegrityWorker.run` consists of exactly `⌊interval * 10⌋` slices
of 0.1 s (`for _ in range(int(self._interval * 10))`), so the total
slept time never exceeds the interval, and an interval strictly below
0.1 s yields no sleep at all. -/
theorem sleep_slice_count_spec (q : ℚ) (hq : 0 ≤ q) :
    (numSleepSlices q : ℤ) = ⌊q * 10⌋
    ∧ (numSleepSlices q : ℚ) * (1 / 10) ≤ q
    ∧ (q < 1 / 10 → numSleepSlices q = 0) := by
  have h10 : (0:ℚ) ≤ q * 10 := by positivity
  have hp : pyInt (q * 10) = ⌊q * 10⌋ := if_pos h10
  have hfl : 0 ≤ ⌊q * 10⌋ := Int.floor_nonneg.mpr h10
  have hcast : (numSleepSlices q : ℤ) = ⌊q * 10⌋ := by
    simp [numSleepSlices, hp, Int.toNat_of_nonneg hfl]
  refine ⟨hcast, ?_, ?_⟩
  · have h1 : ((numSleepSlices q : ℤ) : ℚ) ≤ q * 10 := by
      rw [hcast]; exact Int.floor_le _
    push_cast at h1 ⊢
    linarith
  · intro hlt
    have hq1 : q * 10 < 1 := by linarith
    have h2 : ⌊q * 10⌋ < 1 := Int.floor_lt.mpr (by exact_mod_cast hq1)
    have h3 : (numSleepSlices q : ℤ) = 0 := by omega
    exact_mod_cast h3

/-- Witness for C10 at the default interval 5.0 s: the hypothesis
`0 ≤ 5` holds and the slice-count facts follow. -/
theorem sleep_slice_count_spec_witness :
    (0 ≤ (5:ℚ)) ∧
    ((numSleepSlices 5 : ℤ) = ⌊(5:ℚ) * 10⌋
     ∧ (numSleepSlices 5 : ℚ) * (1 / 10) ≤ 5
     ∧ ((5:ℚ) < 1 / 10 → numSleepSlices 5 = 0)) :=
  ⟨by decide, sleep_slice_count_spec 5 (by decide)⟩

/-- C1, counterexample: in the iteration whose first probe raises (the
other three returning normally), `run`'s blanket
`try: results = {...}; logger.log_system_integrity(results)
except Exception: pass` aborts the whole body — no Snapshot is produced
or dispatched for that iteration and the surviving three payloads are
dropped, contrary to the claim; the loop itself does continue, as the
following all-ok iteration is still dispatched. -/
theorem probe_fault_drops_snapshot_cex :
    pollIteration ⟨.raise, .ok "stats", .ok "net", .ok "progs"⟩ = none
    ∧ runIterations
        [⟨.raise, .ok "stats", .ok "net", .ok "progs"⟩,
         ⟨.ok "b", .ok "s", .ok "n", .ok "p"⟩]
        = [⟨"b", "s", "n", "p"⟩] :=
  ⟨rfl, rfl⟩

/-- C1, amended: a probe fault never terminates the scheduler loop —
processing always continues with the remaining iterations — but the
faulted iteration dispatches nothing at all: a Snapshot is handed to
the log sink exactly when all four probes return normally, and when any
probe raises, the other three payloads are dropped along with it rather
than preserved. -/
theorem scheduler_fault_isolation (p : PollProbes) (rest : List PollProbes) :
    runIterations (p :: rest) = (pollIteration p).toList ++ runIterations rest
    ∧ ((pollIteration p).isSome = true ↔
        p.browser_info ≠ .raise ∧ p.browser_stats ≠ .raise ∧
        p.network_info ≠ .raise ∧ p.programs_info ≠ .raise) := by
  obtain ⟨b, s, n, pr⟩ := p
  cases b <;> cases s <;> cases n <;> cases pr <;>
    simp [runIterations, pollIteration]

/-- C3, counterexample: the title `"Tab - Chrome Extras"` contains the
pattern `" - Chrome"` only in its interior — no family pattern is a
suffix of the lowercased title — yet `classify_browser` classifies it
as `"Chrome"`, because the source tests `pat.lower() in title.lower()`
(substring containment), not suffix matching. -/
theorem classifier_not_suffix_cex :
    classify_browser "Tab - Chrome Extras" = some "Chrome"
    ∧ suffixMatches "Tab - Chrome Extras" = false := by
  exact ⟨by decide, by decide⟩

/-- C3, amended: `classify_browser` assigns some browser family iff one
of the fixed per-family patterns occurs, case-insensitively, as a
substring *anywhere* in the title (the first family in table order with
an occurring pattern wins); in particular a case-insensitive suffix
match still implies classification, but is not required. -/
theorem classifier_assigns_iff_substring (title : String) :
    ((classify_browser title).isSome = true ↔
      ∃ name pats, (name, pats) ∈ TITLE_PATTERNS ∧
        ∃ pat ∈ pats, strHas (strLower title) (strLower pat) = true)
    ∧ (∀ name pats pat, (name, pats) ∈ TITLE_PATTERNS → pat ∈ pats →
        strEnds (strLower title) (strLower pat) = true →
        (classify_browser title).isSome = true) := by
  constructor
  · exact classifyWith_isSome_iff (strLower title) TITLE_PATTERNS
  · intro name pats pat hmem hpat hend
    exact (classifyWith_isSome_iff (strLower title) TITLE_PATTERNS).mpr
      ⟨name, pats, hmem, pat, hpat, strHas_of_strEnds hend⟩

/-- Witness for C3 (amended) at the spec's own example: a title ending
in `" - Google Chrome"` is classified. -/
theorem classifier_assigns_iff_substring_witness :
    (" - Google Chrome" ∈ [" - Google Chrome", " - Chrome"])
    ∧ strEnds (strLower "Docs - Google Chrome") (strLower " - Google Chrome") = true
    ∧ (classify_browser "Docs - Google Chrome").isSome = true :=
  ⟨by decide, by decide,
    (classifier_assigns_iff_substring "Docs - Google Chrome").2
      "Chrome" [" - Google Chrome", " - Chrome"] " - Google Chrome"
      (by decide) (by decide) (by decide)⟩

/-- C6, counterexample: starting from the fresh cache of `__init__`, a
scan at t=100 caches `~2 extension(s)`; a second call at t=109 is a
cache hit; a third call at t=111 — only 2 seconds after the second call
— is nevertheless ≥ 10 s past the last recomputation, so it rescans the
(changed) filesystem and returns a different string.  Two calls less
than 10 seconds apart therefore need not return the same cached string:
the 10-second window is measured from the last cache write, not from
the previous call. -/
theorem ext_cache_refetch_cex :
    ((111:ℤ) - 109 < 10)
    ∧ (getExtensionSummary initExtCache 100 [("Chrome", some 2)]).1
        = "  * Chrome: ~2 extension(s)"
    ∧ ((getExtensionSummary
          (getExtensionSummary initExtCache 100 [("Chrome", some 2)]).2
          109 [("Chrome", some 3)]).1
        = "  * Chrome: ~2 extension(s)")
    ∧ ((getExtensionSummary
          (getExtensionSummary
            (getExtensionSummary initExtCache 100 [("Chrome", some 2)]).2
            109 [("Chrome", some 3)]).2
          111 [("Chrome", some 3)]).1
        = "  * Chrome: ~3 extension(s)")
    ∧ "  * Chrome: ~3 extension(s)" ≠ "  * Chrome: ~2 extension(s)" := by
  refine ⟨by decide, by decide, by decide, by decide, by decide⟩

/-- C6, amended: any call issued strictly less than 10 seconds after
the last cache write returns the previously cached string unchanged —
whatever the filesystem now contains, and also when the cached result
is the empty/none-found summary — and leaves the cache untouched; a
call issued ≥ 10 seconds after the last cache write performs a fresh
scan, returns it, and re-stamps the cache. -/
theorem ext_cache_ttl (st : ExtCache) (now : ℤ)
    (fs fsAlt : List (String × Option Nat)) :
    (now - st.cacheTime < 10 →
      getExtensionSummary st now fs = (st.cacheStr, st)
      ∧ getExtensionSummary st now fs = getExtensionSummary st now fsAlt)
    ∧ (10 ≤ now - st.cacheTime →
      getExtensionSummary st now fs
        = (computeSummary fs, ⟨now, computeSummary fs⟩)) := by
  constructor
  · intro h
    simp [getExtensionSummary, h]
  · intro h
    have h' : ¬ now - st.cacheTime < 10 := not_lt.mpr h
    simp [getExtensionSummary, h']

/-- Witness for C6 (amended): a cache-hit call 5 s after a write of the
none-found summary ignores a filesystem that now has extensions, and a
call 10 s after the write rescans. -/
theorem ext_cache_ttl_witness :
    ((105:ℤ) - 100 < 10
     ∧ getExtensionSummary ⟨100, "  (no extension roots found)"⟩ 105 [("Brave", some 4)]
         = ("  (no extension roots found)", ⟨100, "  (no extension roots found)"⟩)
     ∧ getExtensionSummary ⟨100, "  (no extension roots found)"⟩ 105 [("Brave", some 4)]
         = getExtensionSummary ⟨100, "  (no extension roots found)"⟩ 105 [])
    ∧ ((10:ℤ) ≤ (110:ℤ) - 100
       ∧ getExtensionSummary ⟨100, "  (no extension roots found)"⟩ 110 [("Brave", some 4)]
           = (computeSummary [("Brave", some 4)],
              ⟨110, computeSummary [("Brave", some 4)]⟩)) :=
  ⟨⟨by decide,
    ((ext_cache_ttl ⟨100, "  (no extension roots found)"⟩ 105 [("Brave", some 4)] []).1
      (by decide)).1,
    ((ext_cache_ttl ⟨100, "  (no extension roots found)"⟩ 105 [("Brave", some 4)] []).1
      (by decide)).2⟩,
   ⟨by decide,
    (ext_cache_ttl ⟨100, "  (no extension roots found)"⟩ 110 [("Brave", some 4)] []).2
      (by decide)⟩⟩

/-- C8, counterexample: with 11 discovered network names the macOS
prober (`_get_network_info_macos`, airport block) emits the header, the
first 10 names and a blank line — 12 lines total, none of them an
overflow marker — while the Windows prober does emit `(+1 more)`.  The
claim's "on every platform … includes an overflow marker" is therefore
false on macOS. -/
theorem nearby_macos_no_marker_cex :
    10 < (["n01","n02","n03","n04","n05","n06","n07","n08","n09","n10","n11"] : List String).length
    ∧ (nearbySectionMacos
        ["n01","n02","n03","n04","n05","n06","n07","n08","n09","n10","n11"]).all
        (fun l => !(strHas l "more)")) = true
    ∧ (nearbySectionMacos
        ["n01","n02","n03","n04","n05","n06","n07","n08","n09","n10","n11"]).length = 12
    ∧ ("  * (+1 more)") ∈ nearbySectionWindows
        ["n01","n02","n03","n04","n05","n06","n07","n08","n09","n10","n11"] := by
  refine ⟨by decide, by decide, by decide, by decide⟩

/-- C8, amended: on both platforms the nearby-networks section lists at
most 10 wireless network names (`ssids[:10]`); when more than 10 were
discovered the Windows prober appends an overflow marker naming how
many more exist, but the macOS prober silently truncates — its section
is always exactly header + min(10, count) names + blank line, with no
marker line. -/
theorem nearby_networks_truncation (ssids : List String) :
    (nearbySectionMacos ssids).length
        = (if ssids.isEmpty then 0 else min 10 ssids.length + 2)
    ∧ (10 < ssids.length →
        ("  * (+" ++ toString (ssids.length - 10) ++ " more)") ∈ nearbySectionWindows ssids)
    ∧ (nearbySectionWindows ssids).length
        = (if ssids.isEmpty then 0
           else min 10 ssids.length + 2 + (if 10 < ssids.length then 1 else 0)) := by
  refine ⟨?_, ?_, ?_⟩
  · by_cases h : ssids.isEmpty <;> simp [nearbySectionMacos, h, List.length_take]
  · intro hlen
    have h : ¬ ssids.isEmpty := by
      cases ssids with
      | nil => simp at hlen
      | cons a l => simp
    simp [nearbySectionWindows, h, hlen]
  · by_cases h : ssids.isEmpty
    · simp [nearbySectionWindows, h]
    · by_cases hlen : 10 < ssids.length <;>
        simp [nearbySectionWindows, h, hlen, List.length_take]

/-- Witness for C8 (amended) at a 12-name discovery. -/
theorem nearby_networks_truncation_witness :
    (10 < (["a","b","c","d","e","f","g","h","i","j","k","l"] : List String).length)
    ∧ ("  * (+2 more)")
        ∈ nearbySectionWindows ["a","b","c","d","e","f","g","h","i","j","k","l"]
    ∧ (nearbySectionMacos ["a","b","c","d","e","f","g","h","i","j","k","l"]).length
        = (if (["a","b","c","d","e","f","g","h","i","j","k","l"] : List String).isEmpty
           then 0
           else min 10 (["a","b","c","d","e","f","g","h","i","j","k","l"] : List String).length + 2) :=
  ⟨by decide,
   (nearby_networks_truncation ["a","b","c","d","e","f","g","h","i","j","k","l"]).2.1
     (by decide),
   (nearby_networks_truncation ["a","b","c","d","e","f","g","h","i","j","k","l"]).1⟩

/-- The comparator used by `processes.sort(key=lambda x: x[0].lower())`
is transitive (Windows tuple shape). -/
theorem procLeW_trans : ∀ a b c : ProcW, procLeW a b → procLeW b c → procLeW a c := by
  intro a b c hab hbc
  simp only [procLeW, decide_eq_true_eq] at *
  exact le_trans hab hbc

theorem procLeW_total : ∀ a b : ProcW, procLeW a b || procLeW b a := by
  intro a b
  simp only [procLeW, Bool.or_eq_true, decide_eq_true_eq]
  exact le_total _ _

theorem procLeM_trans : ∀ a b c : ProcM, procLeM a b → procLeM b c → procLeM a c := by
  intro a b c hab hbc
  simp only [procLeM, decide_eq_true_eq] at *
  exact le_trans hab hbc

theorem procLeM_total : ∀ a b : ProcM, procLeM a b || procLeM b a := by
  intro a b
  simp only [procLeM, Bool.or_eq_true, decide_eq_true_eq]
  exact le_total _ _

/-- C9: for every successfully parsed process list (either platform's
tuple shape), the rendered report is the leading marker line, the
`Running Programs:` header, and exactly one line per process; the
process lines follow the case-insensitively ascending order of a
permutation of the input list; and the leading line reads `YES` exactly
when some process name contains `"cluely"` case-insensitively. -/
theorem process_report_spec (ps : List ProcW) (qs : List ProcM) :
    ((renderProgramsWindows ps).length = ps.length + 2
     ∧ (renderProgramsWindows ps).head? =
         some ("Cluely Detected: " ++ (if ps.any hasCluelyW then "YES" else "NO") ++ "\n")
     ∧ (ps.any hasCluelyW = true ↔ ∃ p ∈ ps, strHas (strLower p.name) "cluely" = true)
     ∧ (ps.mergeSort procLeW).Pairwise (fun a b => strLower a.name ≤ strLower b.name)
     ∧ (renderProgramsWindows ps).drop 2
         = (ps.mergeSort procLeW).map
             (fun p => "  * " ++ p.name ++ "  (PID " ++ p.pid ++ ")  Mem: " ++ p.mem)
     ∧ List.Perm (ps.mergeSort procLeW) ps)
    ∧ ((renderProgramsMacos qs).length = qs.length + 2
       ∧ (renderProgramsMacos qs).head? =
           some ("Cluely Detected: " ++ (if qs.any hasCluelyM then "YES" else "NO") ++ "\n")
       ∧ (qs.any hasCluelyM = true ↔ ∃ p ∈ qs, strHas (strLower p.name) "cluely" = true)
       ∧ (qs.mergeSort procLeM).Pairwise (fun a b => strLower a.name ≤ strLower b.name)
       ∧ (renderProgramsMacos qs).drop 2
           = (qs.mergeSort procLeM).map
               (fun p => "  * " ++ p.name ++ "  (PID " ++ p.pid ++ ")")
       ∧ List.Perm (qs.mergeSort procLeM) qs) := by
  have hanyW : (ps.mergeSort procLeW).any hasCluelyW = ps.any hasCluelyW := by
    rw [Bool.eq_iff_iff]
    simp [List.any_eq_true]
  have hanyM : (qs.mergeSort procLeM).any hasCluelyM = qs.any hasCluelyM := by
    rw [Bool.eq_iff_iff]
    simp [List.any_eq_true]
  refine ⟨⟨?_, ?_, ?_, ?_, ?_, ?_⟩, ?_, ?_, ?_, ?_, ?_, ?_⟩
  · simp [renderProgramsWindows]
  · simp [renderProgramsWindows, hanyW]
  · simp [List.any_eq_true, hasCluelyW]
  · exact (List.sorted_mergeSort procLeW_trans procLeW_total ps).imp
      (by intro a b hab; simpa [procLeW] using hab)
  · simp [renderProgramsWindows]
  · exact List.mergeSort_perm ps procLeW
  · simp [renderProgramsMacos]
  · simp [renderProgramsMacos, hanyM]
  · simp [List.any_eq_true, hasCluelyM]
  · exact (List.sorted_mergeSort procLeM_trans procLeM_total qs).imp
      (by intro a b hab; simpa [procLeM] using hab)
  · simp [renderProgramsMacos]
  · exact List.mergeSort_perm qs procLeM

theorem dequeAppend_sublist (m : Nat) (buf : List ℤ) (t : ℤ) :
    (dequeAppend m buf t).Sublist (buf ++ [t]) := by
  unfold dequeAppend
  dsimp only
  split
  · exact List.drop_sublist _ _
  · exact List.Sublist.refl _

theorem dequeAppend_length (buf : List ℤ) (t : ℤ) :
    (dequeAppend 500 buf t).length ≤ 500 := by
  unfold dequeAppend
  dsimp only
  split
  · next h =>
      simp only [List.length_drop]
      omega
  · next h =>
      omega

theorem dequeAppend_pairwise (buf : List ℤ) (t : ℤ)
    (hs : buf.Pairwise (· ≤ ·)) (ht : ∀ x ∈ buf, x ≤ t) :
    (dequeAppend 500 buf t).Pairwise (· ≤ ·) := by
  have hall : (buf ++ [t]).Pairwise (· ≤ ·) := by
    rw [List.pairwise_append]
    exact ⟨hs, List.pairwise_singleton _ _, fun x hx y hy => by
      simp at hy; subst hy; exact ht x hx⟩
  exact hall.sublist (dequeAppend_sublist 500 buf t)

theorem dequeAppend_mem (buf : List ℤ) (t x : ℤ)
    (hx : x ∈ dequeAppend 500 buf t) : x ∈ buf ∨ x = t := by
  have := (dequeAppend_sublist 500 buf t).mem hx
  simpa using this

theorem evictOld_mem (now : ℤ) (l : List ℤ) (x : ℤ) (hx : x ∈ evictOld now l) :
    x ∈ l := by
  induction l with
  | nil => simp [evictOld] at hx
  | cons t rest ih =>
    by_cases h : 60 < now - t
    · simp only [evictOld, h, if_pos] at hx
      exact List.mem_cons_of_mem _ (ih hx)
    · simpa [evictOld, h] using hx

theorem evictOld_pairwise (now : ℤ) (l : List ℤ) (hs : l.Pairwise (· ≤ ·)) :
    (evictOld now l).Pairwise (· ≤ ·) := by
  induction l with
  | nil => simp [evictOld]
  | cons t rest ih =>
    by_cases h : 60 < now - t
    · simp only [evictOld, h, if_pos]
      exact ih (List.Pairwise.of_cons hs)
    · simpa [evictOld, h] using hs

theorem evictOld_length (now : ℤ) (l : List ℤ) :
    (evictOld now l).length ≤ l.length := by
  induction l with
  | nil => simp [evictOld]
  | cons t rest ih =>
    by_cases h : 60 < now - t
    · simp only [evictOld, h, if_pos, List.length_cons]
      omega
    · simp [evictOld, h]

theorem evictOld_window (now : ℤ) (l : List ℤ) (hs : l.Pairwise (· ≤ ·)) :
    ∀ x ∈ evictOld now l, now - 60 ≤ x := by
  induction l with
  | nil => simp [evictOld]
  | cons t rest ih =>
    by_cases h : 60 < now - t
    · simp only [evictOld, h, if_pos]
      exact ih (List.Pairwise.of_cons hs)
    · simp only [evictOld, h, if_neg, Bool.false_eq_true, ite_false]
      intro x hx
      rcases List.mem_cons.mp hx with rfl | hx'
      · omega
      · have : t ≤ x := (List.pairwise_cons.mp hs).1 x hx'
        omega

theorem diffLoop_inv (prev : TitleMap) (now : ℤ) (cur : TitleMap) :
    ∀ hist total, hist.length ≤ 500 → hist.Pairwise (· ≤ ·) → (∀ x ∈ hist, x ≤ now) →
      (diffLoop prev now cur (hist, total)).1.length ≤ 500
      ∧ (diffLoop prev now cur (hist, total)).1.Pairwise (· ≤ ·)
      ∧ (∀ x ∈ (diffLoop prev now cur (hist, total)).1, x ≤ now) := by
  induction cur with
  | nil =>
    intro hist total h1 h2 h3
    exact ⟨h1, h2, h3⟩
  | cons p rest ih =>
    intro hist total h1 h2 h3
    by_cases hsw : switchTest prev p
    · simp only [diffLoop, hsw, if_pos]
      exact ih _ _ (dequeAppend_length hist now)
        (dequeAppend_pairwise hist now h2 h3)
        (fun x hx => by
          rcases dequeAppend_mem hist now x hx with hmem | rfl
          · exact h3 x hmem
          · exact le_refl x)
    · simp only [diffLoop, hsw, if_neg, Bool.false_eq_true, ite_false]
      exact ih _ _ h1 h2 h3

/-- C4: a poll of the Activity Tracker preserves the ring-buffer
invariants.  Starting from any buffer that satisfies them (at most 500
entries, non-decreasing timestamps, no timestamp in the future — all
true of the empty initial buffer and re-established by every poll under
a monotone clock), the buffer after the poll holds at most 500 entries
(`deque(maxlen=500)`), is still ordered by non-decreasing timestamp,
and contains only events with timestamp ≥ now − 60 s (the post-append
eviction loop). -/
theorem switch_history_invariant (st : TrackerState) (now : ℤ) (titles : TitleMap)
    (hlen : st.switchHistory.length ≤ 500)
    (hsort : st.switchHistory.Pairwise (· ≤ ·))
    (hle : ∀ x ∈ st.switchHistory, x ≤ now) :
    (pollTracker st now titles).switchHistory.length ≤ 500
    ∧ (pollTracker st now titles).switchHistory.Pairwise (· ≤ ·)
    ∧ (∀ x ∈ (pollTracker st now titles).switchHistory, now - 60 ≤ x) := by
  obtain ⟨h1, h2, h3⟩ :=
    diffLoop_inv st.prevTitles now titles st.switchHistory st.totalSwitches hlen hsort hle
  simp only [pollTracker]
  exact ⟨le_trans (evictOld_length now _) h1,
         evictOld_pairwise now _ h2,
         evictOld_window now _ h2⟩

/-- Witness for C4: a concrete poll at t = 150 over a buffer holding
events at t = 80 and t = 100, with the tracked window's title changed. -/
theorem switch_history_invariant_witness :
    (([80, 100] : List ℤ).length ≤ 500
     ∧ ([80, 100] : List ℤ).Pairwise (· ≤ ·)
     ∧ (∀ x ∈ ([80, 100] : List ℤ), x ≤ (150:ℤ)))
    ∧ ((pollTracker ⟨[(1, "Docs")], [80, 100], 2⟩ 150 [(1, "Gmail")]).switchHistory.length ≤ 500
       ∧ (pollTracker ⟨[(1, "Docs")], [80, 100], 2⟩ 150 [(1, "Gmail")]).switchHistory.Pairwise (· ≤ ·)
       ∧ (∀ x ∈ (pollTracker ⟨[(1, "Docs")], [80, 100], 2⟩ 150 [(1, "Gmail")]).switchHistory,
            (150:ℤ) - 60 ≤ x)) :=
  ⟨⟨by decide, by decide, by decide⟩,
   switch_history_invariant ⟨[(1, "Docs")], [80, 100], 2⟩ 150 [(1, "Gmail")]
     (by decide) (by decide) (by decide)⟩

theorem dequeAppend_no_overflow (buf : List ℤ) (t : ℤ) (h : buf.length + 1 ≤ 500) :
    dequeAppend 500 buf t = buf ++ [t] := by
  unfold dequeAppend
  dsimp only
  rw [if_neg (by simp only [List.length_append, List.length_singleton]; omega)]

theorem diffLoop_total_eq (prev : TitleMap) (now : ℤ) (cur : TitleMap) :
    ∀ hist total, (diffLoop prev now cur (hist, total)).2
      = total + cur.countP (switchTest prev) := by
  induction cur with
  | nil => intro hist total; simp [diffLoop]
  | cons p rest ih =>
    intro hist total
    by_cases hsw : switchTest prev p
    · simp only [diffLoop, hsw, if_pos, List.countP_cons, ih]
      omega
    · simp only [diffLoop, hsw, if_neg, Bool.false_eq_true, ite_false,
        List.countP_cons, ih]
      omega

theorem diffLoop_hist_eq (prev : TitleMap) (now : ℤ) (cur : TitleMap) :
    ∀ hist total, hist.length + cur.countP (switchTest prev) ≤ 500 →
      (diffLoop prev now cur (hist, total)).1
        = hist ++ List.replicate (cur.countP (switchTest prev)) now := by
  induction cur with
  | nil => intro hist total _; simp [diffLoop]
  | cons p rest ih =>
    intro hist total hcap
    by_cases hsw : switchTest prev p
    · have hcnt : (p :: rest).countP (switchTest prev)
          = rest.countP (switchTest prev) + 1 := by
        simp [List.countP_cons, hsw]
      rw [hcnt] at hcap ⊢
      have hde : dequeAppend 500 hist now = hist ++ [now] :=
        dequeAppend_no_overflow hist now (by omega)
      simp only [diffLoop, hsw, if_pos, hde]
      rw [ih (hist ++ [now]) (total + 1)
        (by simp only [List.length_append, List.length_singleton]; omega)]
      rw [List.append_assoc]
      simp [List.replicate_succ]
    · have hcnt : (p :: rest).countP (switchTest prev)
          = rest.countP (switchTest prev) := by
        simp [List.countP_cons, hsw]
      rw [hcnt] at hcap ⊢
      simp only [diffLoop, hsw, if_neg, Bool.false_eq_true, ite_false]
      exact ih hist total hcap

/-- C5: per-identity switch accounting of one poll.  Every entry
`(h, b)` of the fresh title map contributes its `switchTest` indicator
to the poll: the lifetime counter grows by exactly the number of
entries whose indicator is set (`countP`), and — while the ring buffer
is below capacity — exactly that many `now`-stamped SwitchEvents are
appended.  For an identity `h` held in the previous map with (nonempty)
title `a`, the indicator of its fresh entry `(h, b)` is set iff the
title changed (`a ≠ b`): a changed title contributes exactly one event
and one counter increment, an unchanged title contributes neither. -/
theorem tracker_per_identity_switch (prev : TitleMap) (now : ℤ) (cur : TitleMap)
    (hist : List ℤ) (total : Nat) (h : Nat) (a b : String)
    (hp : List.lookup h prev = some a) (ha : a ≠ "") :
    (switchTest prev (h, b) = true ↔ a ≠ b)
    ∧ (diffLoop prev now cur (hist, total)).2 = total + cur.countP (switchTest prev)
    ∧ (hist.length + cur.countP (switchTest prev) ≤ 500 →
        (diffLoop prev now cur (hist, total)).1
          = hist ++ List.replicate (cur.countP (switchTest prev)) now) := by
  refine ⟨?_, diffLoop_total_eq prev now cur hist total,
          diffLoop_hist_eq prev now cur hist total⟩
  simp only [switchTest, hp]
  constructor
  · intro hb
    have := (Bool.and_eq_true _ _).mp hb
    intro heq
    subst heq
    simpa using this.2
  · intro hne
    refine (Bool.and_eq_true _ _).mpr ⟨?_, ?_⟩
    · simpa using ha
    · simpa using hne

/-- Witness for C5: the spec's own two-poll scenario — identity 1's
title changes from `"Docs - Google Chrome"` to `"Gmail - Google
Chrome"`, producing exactly one switch event and one increment. -/
theorem tracker_per_identity_switch_witness :
    (List.lookup 1 [(1, "Docs - Google Chrome")] = some "Docs - Google Chrome"
     ∧ "Docs - Google Chrome" ≠ "")
    ∧ ((switchTest [(1, "Docs - Google Chrome")] (1, "Gmail - Google Chrome") = true
         ↔ "Docs - Google Chrome" ≠ "Gmail - Google Chrome")
       ∧ (diffLoop [(1, "Docs - Google Chrome")] 0 [(1, "Gmail - Google Chrome")]
            ([], 0)).2
           = 0 + ([(1, "Gmail - Google Chrome")] : TitleMap).countP
               (switchTest [(1, "Docs - Google Chrome")])
       ∧ (([] : List ℤ).length
            + ([(1, "Gmail - Google Chrome")] : TitleMap).countP
                (switchTest [(1, "Docs - Google Chrome")]) ≤ 500 →
          (diffLoop [(1, "Docs - Google Chrome")] 0 [(1, "Gmail - Google Chrome")]
            ([], 0)).1
            = [] ++ List.replicate
                (([(1, "Gmail - Google Chrome")] : TitleMap).countP
                  (switchTest [(1, "Docs - Google Chrome")])) 0)) :=
  ⟨⟨by decide, by decide⟩,
   tracker_per_identity_switch [(1, "Docs - Google Chrome")] 0
     [(1, "Gmail - Google Chrome")] [] 0 1 "Docs - Google Chrome"
     "Gmail - Google Chrome" (by decide) (by decide)⟩

theorem sliceLoop_stopped (flag : Nat → Bool) (k : Nat) (hf : flag k = true) :
    ∀ n, (sliceLoop flag n k).1 = 0 := by
  intro n
  cases n with
  | zero => rfl
  | succ m => simp [sliceLoop, hf]

theorem sliceLoop_exit_flag (flag : Nat → Bool) (hm : FlagMonotone flag) :
    ∀ n k, flag k = true → flag ((sliceLoop flag n k).2) = true := by
  intro n
  cases n with
  | zero => intro k hf; exact hf
  | succ m =>
    intro k hf
    simp only [sliceLoop, hf, if_pos]
    exact hm k (k + 1) (Nat.le_succ k) hf

theorem runLoop_stopped (flag : Nat → Bool) (m fuel k : Nat) (hf : flag k = true) :
    runLoop flag m fuel k = (0, 0) := by
  cases fuel with
  | zero => rfl
  | succ f => simp [runLoop, hf]

/-- C7: cooperative cancellation is observed within one sleep slice.
`stop()` only sets the flag.  If the k-th flag read of the background
loop evaluates the flag *before* a slice (read `j` returns false, the
0.1 s slice `j` starts) and the stop request lands during that slice
(so read `j+1`, and by monotonicity every later read, returns true),
then: the sliced sleep beginning at read `j` completes exactly that one
in-progress ≤ 0.1 s slice and breaks — however many slices of the
configured interval remained — and the loop resumed after it performs
zero further polls and zero further sleep slices, i.e. it exits without
starting another poll iteration. -/
theorem stop_observed_within_one_slice (flag : Nat → Bool) (hm : FlagMonotone flag)
    (j : Nat) (hj : flag j = false) (hj1 : flag (j + 1) = true)
    (n m fuel : Nat) (w : WorkerFlags) :
    (workerStop w).stopRequested = true
    ∧ (sliceLoop flag (n + 1) j).1 = 1
    ∧ runLoop flag m fuel ((sliceLoop flag (n + 1) j).2) = (0, 0) := by
  have hstep : (sliceLoop flag (n + 1) j).1 = 1 ∧ flag ((sliceLoop flag (n + 1) j).2) = true := by
    simp only [sliceLoop, hj, Bool.false_eq_true, if_neg, ite_false]
    constructor
    · rw [sliceLoop_stopped flag (j + 1) hj1 n]
    · exact sliceLoop_exit_flag flag hm n (j + 1) hj1
  exact ⟨rfl, hstep.1, runLoop_stopped flag m fuel _ hstep.2⟩

/-- Witness for C7: the stop request lands during slice 0, so the flag
is false at read 0 and true from read 1 on; a 50-slice (5 s interval)
sleep sleeps exactly one slice, and the loop performs no further poll. -/
theorem stop_observed_within_one_slice_witness :
    (FlagMonotone (fun i => decide (1 ≤ i))
     ∧ (fun i => decide (1 ≤ i)) 0 = false
     ∧ (fun i => decide (1 ≤ i)) (0 + 1) = true)
    ∧ ((workerStop ⟨false⟩).stopRequested = true
       ∧ (sliceLoop (fun i => decide (1 ≤ i)) (49 + 1) 0).1 = 1
       ∧ runLoop (fun i => decide (1 ≤ i)) 50 20
           ((sliceLoop (fun i => decide (1 ≤ i)) (49 + 1) 0).2) = (0, 0)) :=
  ⟨⟨fun i j hij hi => by
      simp only [decide_eq_true_eq] at hi ⊢
      omega,
    by decide, by decide⟩,
   stop_observed_within_one_slice (fun i => decide (1 ≤ i))
     (fun i j hij hi => by
       simp only [decide_eq_true_eq] at hi ⊢
       omega)
     0 (by decide) (by decide) 49 50 20 ⟨false⟩⟩
